import Mathlib

/-
Verification of the freeform-table extraction/classification core of the
CSV-cleaner repository (src/inbiz_pipeline.py, src/flexible_parser.py,
src/app.py).

Python strings are modelled as `List Char`.  `str.strip`, `str.lower` and
`float()`-parsability are modelled on the ASCII subset (all inputs the
pipeline handles are ASCII); machine floats are modelled as exact rationals
(`ℚ`).  Each definition below mirrors one Python function or one inlined
expression of the source, named after it.
-/

/-- ASCII whitespace, as stripped by Python's `str.strip()`. -/
def isPySpace (c : Char) : Bool :=
  c = ' ' || c = '\t' || c = '\n' || c = '\r' || c = '\x0b' || c = '\x0c'

/-- Python `str.strip()` (ASCII whitespace). -/
def pyStrip (s : List Char) : List Char :=
  ((s.dropWhile isPySpace).reverse.dropWhile isPySpace).reverse

/-- Python `str.startswith`: `lstartsWith needle hay`. -/
def lstartsWith : List Char → List Char → Bool
  | [], _ => true
  | _ :: _, [] => false
  | a :: as, b :: bs => a = b && lstartsWith as bs

/-- Python `str.endswith`. -/
def lendsWith (n s : List Char) : Bool := lstartsWith n.reverse s.reverse

/-- Python `needle in hay` substring test. -/
def hasSub (n : List Char) : List Char → Bool
  | [] => n.isEmpty
  | c :: rest => lstartsWith n (c :: rest) || hasSub n rest

/-- Python `str.split(sep)` for a one-character separator. -/
def pySplit (sep : Char) : List Char → List (List Char)
  | [] => [[]]
  | c :: rest =>
    if c = sep then [] :: pySplit sep rest
    else
      match pySplit sep rest with
      | f :: r => (c :: f) :: r
      | [] => [[c]]

/-- Python `str.count(ch)`. -/
def countChar (x : Char) (s : List Char) : Nat := s.countP (fun c => c = x)

/-- Python `str.lower()` on the ASCII range (identity elsewhere). -/
def lowerChar (c : Char) : Char :=
  if c = 'A' then 'a' else if c = 'B' then 'b' else if c = 'C' then 'c'
  else if c = 'D' then 'd' else if c = 'E' then 'e' else if c = 'F' then 'f'
  else if c = 'G' then 'g' else if c = 'H' then 'h' else if c = 'I' then 'i'
  else if c = 'J' then 'j' else if c = 'K' then 'k' else if c = 'L' then 'l'
  else if c = 'M' then 'm' else if c = 'N' then 'n' else if c = 'O' then 'o'
  else if c = 'P' then 'p' else if c = 'Q' then 'q' else if c = 'R' then 'r'
  else if c = 'S' then 's' else if c = 'T' then 't' else if c = 'U' then 'u'
  else if c = 'V' then 'v' else if c = 'W' then 'w' else if c = 'X' then 'x'
  else if c = 'Y' then 'y' else if c = 'Z' then 'z' else c

/-- Python `str.lower()` lifted to strings. -/
def pyLower (s : List Char) : List Char := s.map lowerChar

/-- `re.sub(r"/+$", "", s)` and Python `s.rstrip("/")`: drop all trailing `/`. -/
def rstripSlashes (s : List Char) : List Char :=
  (s.reverse.dropWhile (fun c => c = '/')).reverse

/-- `re.sub(r"\.html?$", "", s)` (case-sensitive, greedy: `.html` before `.htm`). -/
def stripHtmlExt (s : List Char) : List Char :=
  if lendsWith ".html".data s then s.take (s.length - 5)
  else if lendsWith ".htm".data s then s.take (s.length - 4)
  else s

/-- `_normalize_key` from src/inbiz_pipeline.py lines 11-18. -/
def normalize_key (p : List Char) : List Char :=
  let s := pyStrip p
  if s = [] then s
  else if lstartsWith ['/'] s then stripHtmlExt (rstripSlashes s)
  else s

/-- No `'\n'` occurs in the list. -/
def noNewline (t : List Char) : Bool := !(t.contains '\n')

/-- Whether `re.sub(r"[?#].*$", ...)` can complete a match whose `[?#]` was just
consumed and `t` is the remaining input: `.*$` succeeds iff `t` is
newline-free, or its only newline is its final character. -/
def qfTailOk (t : List Char) : Bool :=
  noNewline t || (t.getLastD ' ' = '\n' && noNewline t.dropLast)

/-- `re.sub(r"[?#].*$", "", s)`: scan left to right; at the first `?`/`#`
whose tail admits `.*$`, the match (which by greediness runs to the end of the
string, or to just before a final newline) is deleted.  After the deletion at
most a final `'\n'` remains, which cannot match again. -/
def subQueryFrag : List Char → List Char
  | [] => []
  | c :: rest =>
    if (c = '?' || c = '#') && qfTailOk rest then
      if noNewline rest then [] else ['\n']
    else c :: subQueryFrag rest

/-- Completion of the (buggy) regex `r"\\.html?$"` with `re.IGNORECASE` from
src/app.py line 131: after a literal backslash and one arbitrary non-newline
character, the rest must be `htm`/`html` (case-insensitive), anchored at the
end of the string or just before a final newline.  Returns what survives the
substitution (`none` = no match here). -/
def bugHtmlEnd (rest : List Char) : Option (List Char) :=
  if pyLower rest = "html".data || pyLower rest = "htm".data then some []
  else if pyLower rest = "html".data ++ ['\n'] || pyLower rest = "htm".data ++ ['\n'] then
    some ['\n']
  else none

/-- `re.sub(r"\\.html?$", "", s, flags=re.IGNORECASE)` from src/app.py line
131.  Note the pattern requires a literal backslash (`\\`) followed by an
arbitrary character (`.`) before `htm`/`html`; it does NOT strip a plain
`.html` extension. -/
def subBugHtml : List Char → List Char
  | [] => []
  | [c] => [c]
  | c :: x :: rest =>
    if c = '\\' && x ≠ '\n' then
      match bugHtmlEnd rest with
      | some keep => keep
      | none => c :: subBugHtml (x :: rest)
    else c :: subBugHtml (x :: rest)

/-- `re.sub(r"/+", "/", s)`: collapse runs of slashes. -/
def collapseSlashes : List Char → List Char
  | [] => []
  | [c] => [c]
  | c :: d :: rest =>
    if c = '/' && d = '/' then collapseSlashes (d :: rest)
    else c :: collapseSlashes (d :: rest)

/-- `re.sub(r"^/(it|en)/", "/", s, flags=re.IGNORECASE)`: drop one leading
locale segment (anchored, so at most one substitution). -/
def dropLocale (s : List Char) : List Char :=
  match s with
  | c1 :: a :: b :: c4 :: rest =>
    if c1 = '/' ∧ c4 = '/' ∧
        ((lowerChar a = 'i' ∧ lowerChar b = 't') ∨
         (lowerChar a = 'e' ∧ lowerChar b = 'n')) then '/' :: rest
    else s
  | _ => s

/-- `_normalize_articlekey_for_split` from src/app.py lines 128-137. -/
def normalize_articlekey_for_split (p : List Char) : List Char :=
  let s1 := pyStrip p
  let s2 := subQueryFrag s1
  let s3 := subBugHtml s2
  let s4 := collapseSlashes s3
  let s5 := dropLocale s4
  let s6 := if lstartsWith ['/'] s5 then s5 else '/' :: s5
  pyLower (rstripSlashes s6)

/-- The section marker `"Freeform table"` both parsers search for. -/
def ffMarker : List Char := "Freeform table".data

/-- Candidate traffic header (src/inbiz_pipeline.py lines 27-28):
starts with the delimiter and contains `Entries` and `Unique Visitors`. -/
def trafHeaderPred (ln : List Char) : Bool :=
  lstartsWith [','] ln && hasSub "Entries".data ln && hasSub "Unique Visitors".data ln

/-- Candidate channels header (src/inbiz_pipeline.py lines 60-61):
starts with the delimiter, does not contain `Page Views`, and
`ln.count(",") >= 4`. -/
def chanHeaderPred (ln : List Char) : Bool :=
  lstartsWith [','] ln && !hasSub "Page Views".data ln && 4 ≤ countChar ',' ln

/-- `next((i for i in range(lo, hi) if p(lines[i])), None)`. -/
def scanWindow (p : List Char → Bool) (lines : List (List Char)) (lo hi : Nat) :
    Option Nat :=
  (List.range' lo (hi - lo)).find? (fun i => p (lines.getD i []))

inductive ParseError
  | freeformNotFound
  | headerNotFound
deriving DecidableEq, Repr

/-- The row-extraction loop shared by `parse_traffic` (lines 33-43, with
`n = len(headers)`) and `parse_channels` (lines 67-77, with
`n = 1 + len(channels)`): stop at a blank line or a delimiter-led line; a line
with fewer than `n` fields stops extraction if (stripped) it starts with
`"..."` and is skipped otherwise; an accepted line contributes its first `n`
fields (`[parts[0]] + parts[1:n]`). -/
def extractRows (n : Nat) : List (List Char) → List (List (List Char))
  | [] => []
  | ln :: rest =>
    if pyStrip ln = [] then []
    else if lstartsWith [','] ln then []
    else
      let parts := pySplit ',' ln
      if parts.length < n then
        if lstartsWith "...".data (pyStrip ln) then [] else extractRows n rest
      else parts.take n :: extractRows n rest

structure TrafficParse where
  headerIdx : Nat
  headers : List (List Char)
  rawRows : List (List (List Char))
deriving DecidableEq, Repr

structure ChannelsParse where
  headerIdx : Nat
  channels : List (List Char)
  rawRows : List (List (List Char))
deriving DecidableEq, Repr

/-- The header search of `parse_traffic`: first line in
`range(idx+1, min(len(lines), idx+50))` satisfying `trafHeaderPred`, where
`idx` is the first line containing the marker. -/
def trafficHeaderIdx (lines : List (List Char)) : Option Nat :=
  match lines.findIdx? (fun ln => hasSub ffMarker ln) with
  | none => none
  | some idx => scanWindow trafHeaderPred lines (idx + 1) (min lines.length (idx + 50))

/-- The header search of `parse_channels` (same window, `chanHeaderPred`). -/
def channelsHeaderIdx (lines : List (List Char)) : Option Nat :=
  match lines.findIdx? (fun ln => hasSub ffMarker ln) with
  | none => none
  | some idx => scanWindow chanHeaderPred lines (idx + 1) (min lines.length (idx + 50))

/-- `parse_traffic` from src/inbiz_pipeline.py lines 20-43, up to and
including raw row extraction (`headers`, `rows`).  The later DataFrame stage
(totals-row drop, numeric coercion, key/lang columns) reuses `normalize_key`
and is not needed by any claim about this function. -/
def parse_traffic (lines : List (List Char)) : Except ParseError TrafficParse :=
  match lines.findIdx? (fun ln => hasSub ffMarker ln) with
  | none => .error .freeformNotFound
  | some idx =>
    match scanWindow trafHeaderPred lines (idx + 1) (min lines.length (idx + 50)) with
    | none => .error .headerNotFound
    | some h =>
      let headers := "Page".data :: ((pySplit ',' (lines.getD h [])).tail.map pyStrip)
      .ok ⟨h, headers, extractRows headers.length (lines.drop (h + 1))⟩

/-- `parse_channels` from src/inbiz_pipeline.py lines 54-77, up to and
including raw row extraction.  Data rows start at `header1_i + 2` (one
intervening `",Page Views,..."` label line is skipped). -/
def parse_channels (lines : List (List Char)) : Except ParseError ChannelsParse :=
  match lines.findIdx? (fun ln => hasSub ffMarker ln) with
  | none => .error .freeformNotFound
  | some idx =>
    match scanWindow chanHeaderPred lines (idx + 1) (min lines.length (idx + 50)) with
    | none => .error .headerNotFound
    | some h =>
      let channels := (pySplit ',' (lines.getD h [])).tail.map pyStrip
      .ok ⟨h, channels, extractRows (1 + channels.length) (lines.drop (h + 2))⟩

/- ===== schema classifier (src/flexible_parser.py) ===== -/

inductive SchemaKind
  | traffic
  | channels
  | unknown
deriving DecidableEq, Repr

structure FileTypeAnalysis where
  type : SchemaKind
  confidence : ℚ
  numericColumns : List (List Char)

def trafficKeywords : List (List Char) :=
  ["entries", "visitors", "views", "exit", "time", "rate"].map String.data

def channelsKeywords : List (List Char) :=
  ["search", "direct", "internal", "referring", "social", "paid"].map String.data

/-- The per-column keyword score: one point per column whose lower-cased text
contains some keyword of the family (the inner `break` in the source makes a
column count at most once per family). -/
def kwScore (kws : List (List Char)) (columns : List (List Char)) : Nat :=
  columns.countP (fun col => kws.any (fun k => hasSub k (pyLower col)))

/-- Digit run with Python-3.6 underscore grouping, after its first digit:
consume `('_'? digit)*`, never ending on an underscore. -/
def eatDigitTail : List Char → List Char
  | '_' :: d :: r => if d.isDigit then eatDigitTail r else '_' :: d :: r
  | d :: r => if d.isDigit then eatDigitTail r else d :: r
  | [] => []

/-- Consume `digit ('_'? digit)*`, returning the rest (or `none`). -/
def eatDigits (s : List Char) : Option (List Char) :=
  match s with
  | c :: r => if c.isDigit then some (eatDigitTail r) else none
  | [] => none

/-- Consume a float mantissa: `digits ['.' [digits]]` or `'.' digits`. -/
def eatMantissa (s : List Char) : Option (List Char) :=
  match eatDigits s with
  | some rest =>
    match rest with
    | '.' :: r2 =>
      match eatDigits r2 with
      | some r3 => some r3
      | none => some r2
    | _ => some rest
  | none =>
    match s with
    | '.' :: r2 => eatDigits r2
    | _ => none

/-- The optional exponent closing a float literal: empty, or
`(e|E) [+|-] digits` consuming the whole rest. -/
def expOk : List Char → Bool
  | [] => true
  | e :: r =>
    if e = 'e' || e = 'E' then
      let r2 := match r with
        | c :: r3 => if c = '+' || c = '-' then r3 else c :: r3
        | [] => []
      match eatDigits r2 with
      | some r4 => r4.isEmpty
      | none => false
    else false

/-- Whether Python `float(s)` succeeds on an already-stripped `s` (ASCII
number literals, `inf`/`infinity`/`nan`, optional sign). -/
def pyFloatOk (s : List Char) : Bool :=
  let body := match s with
    | c :: r => if c = '+' || c = '-' then r else c :: r
    | [] => []
  (match eatMantissa body with
   | some rest => expOk rest
   | none => false)
  || (let lb := pyLower body
      lb = "inf".data || lb = "infinity".data || lb = "nan".data)

/-- The data-driven branch of `analyze_file_type` (src/flexible_parser.py
lines 97-125): when sample data exists and more than 70% of the first data
line's metric fields parse as floats, return a confident classification
(`none` = fall through to the keyword-only fallback).  The threshold
`numeric_count > len(sample) * 0.7` is modelled with the exact rational
`7/10` (the ≤ 1 ulp binary rounding of the float threshold is not modelled;
no claim depends on that branch boundary). -/
def analyzeNumeric (ts cs : Nat) (columns : List (List Char)) :
    List (List Char) → Option FileTypeAnalysis
  | [] => none
  | firstLine :: _ =>
    let sample := (pySplit ',' firstLine).tail
    let nc := sample.countP (fun v => pyFloatOk (pyStrip v))
    if (nc : ℚ) > (sample.length : ℚ) * (7 / 10) then
      if ts > cs then some ⟨.traffic, min (9 / 10) (1 / 2 + (ts : ℚ) / 10), columns⟩
      else if cs > 0 then some ⟨.channels, min (9 / 10) (1 / 2 + (cs : ℚ) / 10), columns⟩
      else none
    else none

/-- The keyword-only fallback of `analyze_file_type` (src/flexible_parser.py
lines 127-149): `0.6`-confidence best guess, or `unknown` with confidence 0. -/
def analyzeFallback (ts cs : Nat) (columns : List (List Char)) : FileTypeAnalysis :=
  if ts > 0 || cs > 0 then
    if cs ≤ ts then ⟨.traffic, 3 / 5, columns⟩ else ⟨.channels, 3 / 5, columns⟩
  else ⟨.unknown, 0, []⟩

/-- `analyze_file_type` from src/flexible_parser.py lines 67-149.  The
human-readable `reason` string is not modelled.  Float confidences
`min(0.9, 0.5 + score * 0.1)`, `0.6` and `0` are modelled exactly in ℚ. -/
def analyze_file_type (columns : List (List Char)) (dataLines : List (List Char)) :
    FileTypeAnalysis :=
  let ts := kwScore trafficKeywords columns
  let cs := kwScore channelsKeywords columns
  match analyzeNumeric ts cs columns dataLines with
  | some result => result
  | none => analyzeFallback ts cs columns

/- ===== aggregation (src/inbiz_pipeline.py lines 87-108) =====

`df.groupby("ArticleKey")` with pandas' default `sort=True` emits one group
per distinct key, in ascending (lexicographic, by code point) key order.  The
order is modelled by `keyLe` (Python string `<=`) and an insertion sort. -/

/-- Python string `<=` (lexicographic by code point). -/
def keyLe : List Char → List Char → Bool
  | [], _ => true
  | _ :: _, [] => false
  | a :: as, b :: bs =>
    if a.toNat < b.toNat then true
    else if b.toNat < a.toNat then false
    else keyLe as bs

/-- `keyLe` as a Prop-valued relation, for `List.insertionSort`. -/
abbrev keyLeP (a b : List Char) : Prop := keyLe a b = true

/-- The sorted group-key order that pandas `groupby(..., sort=True)` uses. -/
def sortKeys (ks : List (List Char)) : List (List Char) :=
  List.insertionSort keyLeP ks

/-- The distinct group keys, ascending: one output row per element. -/
def groupKeys (ks : List (List Char)) : List (List Char) :=
  sortKeys ks.dedup

/-- pandas column `sum` over a group: missing values are skipped and an
all-missing group sums to `0`. -/
def optSum (l : List (Option ℚ)) : ℚ := (l.filterMap id).sum

/-- pandas column `mean` over a group: missing values are skipped and an
all-missing group has a missing mean. -/
def optMean (l : List (Option ℚ)) : Option ℚ :=
  let vs := l.filterMap id
  if vs = [] then none else some (vs.sum / (vs.length : ℚ))

/-- `lang` recomputation (src/inbiz_pipeline.py lines 51, 84, 101, 107). -/
inductive Lang
  | it
  | en
  | other
deriving DecidableEq, Repr

def langOf (k : List Char) : Lang :=
  if lstartsWith "/it/".data k then .it
  else if lstartsWith "/en/".data k then .en
  else .other

/-- One traffic row as consumed by `aggregate_traffic`: the normalized key
plus the five metric columns, each possibly missing (NaN). -/
structure TrafficRecord where
  articleKey : List Char
  entries : Option ℚ
  exitRate : Option ℚ
  timeSpent : Option ℚ
  uniqueVisitors : Option ℚ
  pageViews : Option ℚ
deriving DecidableEq

/-- One aggregated traffic row. -/
structure TrafficAgg where
  articleKey : List Char
  entries : ℚ
  uniqueVisitors : ℚ
  pageViews : ℚ
  exitRate : Option ℚ
  timeSpent : Option ℚ
  lang : Lang
deriving DecidableEq

/-- `tmp["w"] = tmp["Page Views"].replace(0, np.nan)` per row. -/
def wOf (r : TrafficRecord) : Option ℚ :=
  match r.pageViews with
  | some q => if q = 0 then none else some q
  | none => none

/-- `tmp["er_w"] = tmp["Exit Rate"] * tmp["w"]` per row (NaN-propagating). -/
def erwOf (r : TrafficRecord) : Option ℚ :=
  match r.exitRate, wOf r with
  | some e, some w => some (e * w)
  | _, _ => none

/-- One output row of `aggregate_traffic` (src/inbiz_pipeline.py lines
87-102) for key `k` with group `g`.  `erW` is the weighted mean
`np.nansum(er_w)/np.nansum(w) if np.nansum(w) > 0 else np.nan`; the final
`Exit Rate` is `mean.fillna(weighted)` — the source line 100 keeps the
unweighted group mean and uses the weighted value only where that mean is
missing. -/
def aggRowTraffic (k : List Char) (g : List TrafficRecord) : TrafficAgg :=
  let sumW := (g.filterMap wOf).sum
  let sumEW := (g.filterMap erwOf).sum
  let erW : Option ℚ := if 0 < sumW then some (sumEW / sumW) else none
  let erMean := optMean (g.map (fun r => r.exitRate))
  { articleKey := k
    entries := optSum (g.map (fun r => r.entries))
    uniqueVisitors := optSum (g.map (fun r => r.uniqueVisitors))
    pageViews := optSum (g.map (fun r => r.pageViews))
    exitRate := match erMean with
      | some v => some v
      | none => erW
    timeSpent := optMean (g.map (fun r => r.timeSpent))
    lang := langOf k }

/-- `aggregate_traffic` from src/inbiz_pipeline.py lines 87-102. -/
def aggregate_traffic (records : List TrafficRecord) : List TrafficAgg :=
  (groupKeys (records.map (fun r => r.articleKey))).map
    (fun k => aggRowTraffic k (records.filter (fun r => r.articleKey == k)))

/-- One channels row as consumed by `aggregate_channels`. -/
structure ChannelRecord where
  articleKey : List Char
  organicSearch : Option ℚ
  direct : Option ℚ
  internalTraffic : Option ℚ
  referringDomains : Option ℚ
  socialNetworks : Option ℚ
deriving DecidableEq

structure ChannelAgg where
  articleKey : List Char
  organicSearch : ℚ
  direct : ℚ
  internalTraffic : ℚ
  referringDomains : ℚ
  socialNetworks : ℚ
  lang : Lang
deriving DecidableEq

def aggRowChannels (k : List Char) (g : List ChannelRecord) : ChannelAgg :=
  { articleKey := k
    organicSearch := optSum (g.map (fun r => r.organicSearch))
    direct := optSum (g.map (fun r => r.direct))
    internalTraffic := optSum (g.map (fun r => r.internalTraffic))
    referringDomains := optSum (g.map (fun r => r.referringDomains))
    socialNetworks := optSum (g.map (fun r => r.socialNetworks))
    lang := langOf k }

/-- `aggregate_channels` from src/inbiz_pipeline.py lines 104-108. -/
def aggregate_channels (records : List ChannelRecord) : List ChannelAgg :=
  (groupKeys (records.map (fun r => r.articleKey))).map
    (fun k => aggRowChannels k (records.filter (fun r => r.articleKey == k)))

/-- Modelled from the spec (§4.5): the page-view-weighted mean of rate values,
given `(rate, weight)` pairs — "weighted mean excludes rows whose weight is
zero or missing from both numerator and denominator; if the total weight for
a group is zero, the result is missing".  Used only as the spec-side
comparison point for the aggregation claims. -/
def specWeightedMean (pairs : List (Option ℚ × Option ℚ)) : Option ℚ :=
  let contrib := pairs.filterMap (fun rw =>
    match rw.1, rw.2 with
    | some r, some w => if w = 0 then none else some (r * w, w)
    | _, _ => none)
  let totW := (contrib.map (fun x => x.2)).sum
  if totW = 0 then none else some ((contrib.map (fun x => x.1)).sum / totW)

/- ===== concrete inputs used by counterexamples, failing inputs and witnesses ===== -/

/-- Failing input for the weighted-mean claim: two rows of one group, Exit
Rate 0 with Page Views 1, and Exit Rate 1 with Page Views 3. -/
def c1rowA : TrafficRecord := ⟨"k".data, none, some 0, none, none, some 1⟩

def c1rowB : TrafficRecord := ⟨"k".data, none, some 1, none, none, some 3⟩

/-- Failing input for the all-zero-weight claim: a single row whose Exit Rate
is 1/2 and whose Page Views weight is 0. -/
def c2row : TrafficRecord := ⟨"k".data, none, some (1 / 2), none, none, some 0⟩

/-- Two traffic rows with keys "b", "a" in that insertion order. -/
def c9rowB : TrafficRecord := ⟨"b".data, none, none, none, none, none⟩

def c9rowA : TrafficRecord := ⟨"a".data, none, none, none, none, none⟩

/-- Input whose first delimiter-led, non-`Page Views` line (index 1) has
exactly 4 fields (3 delimiters) and whose next one (index 2) has 6. -/
def c5lines : List (List Char) :=
  ["Freeform table".data, ",a,b,c".data, ",a,b,c,d,e".data, "x,1,2,3,4,5".data]

/-- A traffic file whose one data line starts with the truncation marker but
has as many fields as the header. -/
def c7lines : List (List Char) :=
  ["Freeform table".data, ",Entries,Unique Visitors".data, "...,1,2".data]

/-- A file with the marker but no header line at all. -/
def c8lines : List (List Char) := ["Freeform table".data]

/-- No two adjacent slashes (the shape `re.sub(r"/+", "/", ...)` enforces):
used to state invariants of the split-view normalizer's pipeline. -/
def noSlashPair (a b : Char) : Prop := ¬(a = '/' ∧ b = '/')

/- ===== theorems ===== -/

/-- C4: the split-view key normalization is claimed to strip a trailing
`.htm`/`.html` extension case-insensitively and drop one `/it/`-`/en/` locale
segment, so that `normalize("/it/News/Articolo.html") ==
normalize("/News/Articolo")`.  The code's regex `r"\\.html?$"` (src/app.py
line 131) instead requires a literal backslash before the extension (compare
the correct `r"\.html?$"` at line 147), so the extension survives and the two
keys differ: the code contradicts the spec's stated intent on this input. -/
theorem c4_extension_not_stripped :
    normalize_articlekey_for_split "/it/News/Articolo.html".data
      = "/news/articolo.html".data ∧
    normalize_articlekey_for_split "/News/Articolo".data = "/news/articolo".data ∧
    normalize_articlekey_for_split "/it/News/Articolo.html".data ≠
      normalize_articlekey_for_split "/News/Articolo".data :=
  ⟨by decide, by decide, by decide⟩

/-- C3 (counterexample): neither key normalizer is idempotent on all strings.
`_normalize_key` strips one `.html` per application
(`"/a.html.html" ↦ "/a.html" ↦ "/a"`), and
`_normalize_articlekey_for_split` strips one locale segment per application
(`"/it/it/x" ↦ "/it/x" ↦ "/x"`). -/
theorem c3_counterexample :
    normalize_key (normalize_key "/a.html.html".data)
      ≠ normalize_key "/a.html.html".data ∧
    normalize_articlekey_for_split (normalize_articlekey_for_split "/it/it/x".data)
      ≠ normalize_articlekey_for_split "/it/it/x".data :=
  ⟨by decide, by decide⟩

/-- C5 (counterexample): line 1 of `c5lines` starts with the delimiter, lacks
the excluded token, and has (exactly) 4 delimiter-separated fields, yet the
code does not choose it: `lines[i].count(",") >= 4` requires 4 delimiters,
i.e. at least 5 fields, so line 2 is chosen instead. -/
theorem c5_counterexample :
    lstartsWith [','] ",a,b,c".data = true ∧
    hasSub "Page Views".data ",a,b,c".data = false ∧
    4 ≤ (pySplit ',' ",a,b,c".data).length ∧
    channelsHeaderIdx c5lines = some 2 ∧ (2 : Nat) ≠ 1 :=
  ⟨by decide, by decide, by decide, by decide, by decide⟩

/-- C7 (counterexample): a data line starting with the truncation marker
`"..."` does NOT terminate extraction when it has at least as many fields as
the header — it is kept as an ordinary row (the `"..."` test at
src/inbiz_pipeline.py line 40 is only reached when `len(parts) <
len(headers)`).  Here the header has 3 columns and the line `"...,1,2"` is
extracted as a row. -/
theorem c7_counterexample :
    lstartsWith "...".data (pyStrip "...,1,2".data) = true ∧
    parse_traffic c7lines =
      .ok ⟨1, ["Page".data, "Entries".data, "Unique Visitors".data],
           [["...".data, "1".data, "2".data]]⟩ :=
  ⟨by decide, rfl⟩

/-- C9 (counterexample): the aggregated output is NOT in insertion order of
first-seen `article_key`: keys arrive in the order `"b", "a"` but
`groupby(..., sort=True)` emits the groups in ascending key order `"a", "b"`. -/
theorem c9_counterexample :
    (aggregate_traffic [c9rowB, c9rowA]).map (fun a => a.articleKey)
      = ["a".data, "b".data] ∧
    ["a".data, "b".data] ≠ ["b".data, "a".data] :=
  ⟨by decide, by decide⟩

/-- Any confident (data-driven) classification has confidence at least 3/5. -/
theorem analyzeNumeric_confidence {ts cs : Nat} {columns dataLines : List (List Char)}
    {r : FileTypeAnalysis} (h : analyzeNumeric ts cs columns dataLines = some r) :
    3 / 5 ≤ r.confidence := by
  cases dataLines with
  | nil => simp [analyzeNumeric] at h
  | cons firstLine rest =>
    simp only [analyzeNumeric] at h
    split at h
    · split at h
      · rename_i hts
        injection h with h
        subst h
        have h1 : (1 : ℚ) ≤ (ts : ℚ) := by exact_mod_cast Nat.one_le_iff_ne_zero.mpr (by omega)
        exact le_min (by norm_num) (by linarith)
      · split at h
        · rename_i hcs
          injection h with h
          subst h
          have h1 : (1 : ℚ) ≤ (cs : ℚ) := by exact_mod_cast Nat.one_le_iff_ne_zero.mpr (by omega)
          exact le_min (by norm_num) (by linarith)
        · exact absurd h (by simp)
    · exact absurd h (by simp)

/-- C6: every classification the classifier produces satisfies the invariant
that its kind is `unknown` whenever its confidence is below 0.5: the
data-driven branches yield confidence `min(0.9, 0.5 + score*0.1) ≥ 0.6`, the
keyword fallback yields `0.6`, and the only remaining result is
`(unknown, 0)` — so `traffic`/`channels` never appear with confidence in
`(0, 0.5)`. -/
theorem analyzeFallback_cases (ts cs : Nat) (columns : List (List Char)) :
    (analyzeFallback ts cs columns).type = SchemaKind.unknown ∨
    3 / 5 ≤ (analyzeFallback ts cs columns).confidence := by
  unfold analyzeFallback
  split_ifs
  · exact Or.inr (by norm_num)
  · exact Or.inr (by norm_num)
  · exact Or.inl rfl

theorem c6_confidence_invariant (columns dataLines : List (List Char))
    (h : (analyze_file_type columns dataLines).confidence < 1 / 2) :
    (analyze_file_type columns dataLines).type = SchemaKind.unknown := by
  simp only [analyze_file_type] at h ⊢
  set o := analyzeNumeric (kwScore trafficKeywords columns)
      (kwScore channelsKeywords columns) columns dataLines with ho
  clear_value o
  cases o with
  | some r =>
    exact absurd (show r.confidence < 1 / 2 from h)
      (by have := analyzeNumeric_confidence ho.symm; linarith)
  | none =>
    rcases analyzeFallback_cases (kwScore trafficKeywords columns)
        (kwScore channelsKeywords columns) columns with hu | hge
    · exact hu
    · exact absurd (show (analyzeFallback _ _ columns).confidence < 1 / 2 from h)
        (by linarith)

/-- C6 witness: with no columns and no sample data the classifier returns
`unknown` with confidence `0 < 1/2`. -/
theorem c6_witness : (analyze_file_type [] []).type = SchemaKind.unknown :=
  c6_confidence_invariant [] [] one_half_pos

/-- C8: if the file contains the `"Freeform table"` marker at first index
`idx` but no line in the 50-line look-ahead window past the marker is a
candidate header, then each parser fails with its header-not-found error (it
does not return an empty table).  The code's window `range(idx+1,
min(len(lines), idx+50))` is contained in the window `idx+1 .. idx+50`
quantified here. -/
theorem c8_header_not_found (lines : List (List Char)) (idx : Nat)
    (hm : lines.findIdx? (fun ln => hasSub ffMarker ln) = some idx)
    (ht : ∀ j ∈ List.range' (idx + 1) 50, trafHeaderPred (lines.getD j []) = false)
    (hc : ∀ j ∈ List.range' (idx + 1) 50, chanHeaderPred (lines.getD j []) = false) :
    parse_traffic lines = Except.error ParseError.headerNotFound ∧
    parse_channels lines = Except.error ParseError.headerNotFound := by
  have key : ∀ p : List Char → Bool,
      (∀ j ∈ List.range' (idx + 1) 50, p (lines.getD j []) = false) →
      scanWindow p lines (idx + 1) (min lines.length (idx + 50)) = none := by
    intro p hp
    unfold scanWindow
    rw [List.find?_eq_none]
    intro i hi
    obtain ⟨k, hk, hik⟩ := List.mem_range'.mp hi
    have hb : i ∈ List.range' (idx + 1) 50 :=
      List.mem_range'.mpr ⟨k, by omega, hik⟩
    simpa using hp _ hb
  constructor
  · simp only [parse_traffic, hm, key _ ht]
  · simp only [parse_channels, hm, key _ hc]

/-- C8 witness: a file consisting of just the marker line has no header in
the window, and both parsers report header-not-found. -/
theorem c8_witness :
    parse_traffic c8lines = Except.error ParseError.headerNotFound ∧
    parse_channels c8lines = Except.error ParseError.headerNotFound :=
  c8_header_not_found c8lines 0 (by decide) (by decide) (by decide)

/-- `str.split(sep)` always returns at least one field. -/
theorem pySplit_ne_nil (sep : Char) (s : List Char) : pySplit sep s ≠ [] := by
  cases s with
  | nil => simp [pySplit]
  | cons c rest =>
    simp only [pySplit]
    split
    · simp
    · cases heq : pySplit sep rest with
      | nil => simp
      | cons f r => simp

/-- The number of fields of `str.split(sep)` is the separator count plus 1. -/
theorem pySplit_length (sep : Char) (s : List Char) :
    (pySplit sep s).length = countChar sep s + 1 := by
  induction s with
  | nil => simp [pySplit, countChar]
  | cons c rest ih =>
    simp only [pySplit, countChar, List.countP_cons] at *
    split
    · rename_i hc
      simp only [List.length_cons, ih, decide_eq_true_eq] at *
      simp [hc]
    · rename_i hc
      cases heq : pySplit sep rest with
      | nil => exact absurd heq (pySplit_ne_nil sep rest)
      | cons f r =>
        rw [heq] at ih
        simp only [List.length_cons] at *
        simp only [decide_eq_true_eq]
        rw [if_neg hc]
        omega

/-- The channels header test `chanHeaderPred` (the code's `count(",") >= 4`)
holds exactly when the line starts with the delimiter, lacks the excluded
token, and splits into at least 5 fields. -/
theorem chanHeaderPred_iff (ln : List Char) :
    chanHeaderPred ln = true ↔
      (lstartsWith [','] ln = true ∧ hasSub "Page Views".data ln = false ∧
       5 ≤ (pySplit ',' ln).length) := by
  unfold chanHeaderPred
  rw [pySplit_length]
  constructor
  · intro h
    simp only [Bool.and_eq_true, Bool.not_eq_true', decide_eq_true_eq] at h
    exact ⟨h.1.1, h.1.2, by omega⟩
  · intro ⟨h1, h2, h3⟩
    simp only [Bool.and_eq_true, Bool.not_eq_true', decide_eq_true_eq]
    exact ⟨⟨h1, h2⟩, by omega⟩

/-- `find?` over `range'` returns the least index satisfying the predicate. -/
theorem find?_range'_least {p : Nat → Bool} {lo n i : Nat}
    (h : (List.range' lo n).find? p = some i) :
    lo ≤ i ∧ i < lo + n ∧ p i = true ∧ ∀ j, lo ≤ j → j < i → p j = false := by
  induction n generalizing lo with
  | zero => simp [List.range'] at h
  | succ m ih =>
    rw [List.range'_succ] at h
    cases hpl : p lo with
    | true =>
      rw [List.find?_cons_of_pos _ hpl] at h
      injection h with h
      subst h
      exact ⟨le_refl _, by omega, hpl, fun j h1 h2 => by omega⟩
    | false =>
      rw [List.find?_cons_of_neg _ (by simp [hpl])] at h
      obtain ⟨h1, h2, h3, h4⟩ := ih h
      refine ⟨by omega, by omega, h3, ?_⟩
      intro j hj1 hj2
      rcases Nat.eq_or_lt_of_le hj1 with rfl | hlt
      · exact hpl
      · exact h4 j hlt hj2

/-- C5 (amended): for channel-shaped input the chosen header line is the
first line after the marker, within the window `range(idx+1, min(len(lines),
idx+50))`, that begins with the delimiter, does not contain `"Page Views"`,
and has at least 5 delimiter-separated fields (the code requires at least 4
delimiters, i.e. 5 fields — not 4 fields as claimed); the data rows are then
extracted starting exactly two lines below that header. -/
theorem c5_header_choice (lines : List (List Char)) (idx h : Nat)
    (hm : lines.findIdx? (fun ln => hasSub ffMarker ln) = some idx)
    (hh : channelsHeaderIdx lines = some h) :
    (idx + 1 ≤ h ∧ h < min lines.length (idx + 50)) ∧
    (lstartsWith [','] (lines.getD h []) = true ∧
     hasSub "Page Views".data (lines.getD h []) = false ∧
     5 ≤ (pySplit ',' (lines.getD h [])).length) ∧
    (∀ j, idx + 1 ≤ j → j < h →
      ¬(lstartsWith [','] (lines.getD j []) = true ∧
        hasSub "Page Views".data (lines.getD j []) = false ∧
        5 ≤ (pySplit ',' (lines.getD j [])).length)) ∧
    (∀ res, parse_channels lines = Except.ok res →
      res.headerIdx = h ∧
      res.rawRows = extractRows (1 + res.channels.length) (lines.drop (h + 2))) := by
  have hscan : scanWindow chanHeaderPred lines (idx + 1) (min lines.length (idx + 50))
      = some h := by
    simpa [channelsHeaderIdx, hm] using hh
  obtain ⟨h1, h2, h3, h4⟩ := find?_range'_least (p := fun i => chanHeaderPred (lines.getD i []))
    (hscan)
  refine ⟨⟨h1, by omega⟩, (chanHeaderPred_iff _).mp h3, ?_, ?_⟩
  · intro j hj1 hj2
    intro hcontra
    have : chanHeaderPred (lines.getD j []) = true := (chanHeaderPred_iff _).mpr hcontra
    rw [h4 j hj1 hj2] at this
    exact Bool.false_ne_true this
  · intro res hres
    simp only [parse_channels, hm, hscan] at hres
    injection hres with hres
    subst hres
    exact ⟨rfl, rfl⟩

/-- C5 witness: on `c5lines` the marker is at 0, the chosen header is line 2,
which indeed has at least 5 fields, and the parse succeeds with rows starting
at line 4. -/
theorem c5_witness :
    5 ≤ (pySplit ',' (c5lines.getD 2 [])).length ∧
    ∀ res, parse_channels c5lines = Except.ok res → res.headerIdx = 2 :=
  ⟨(c5_header_choice c5lines 0 2 (by decide) (by decide)).2.1.2.2,
   fun res hres =>
     ((c5_header_choice c5lines 0 2 (by decide) (by decide)).2.2.2 res hres).1⟩

/-- C7 (amended): within the row-extraction loop, a data line with fewer
fields than the header that (after stripping) starts with the truncation
marker `"..."` terminates extraction — it is never included as a row and no
error is possible (`extractRows` is total); a short line not starting with
the marker is skipped, not fatal. -/
theorem c7_short_line_policy (n : Nat) (ln : List Char) (rest : List (List Char))
    (hne : pyStrip ln ≠ []) (hnc : lstartsWith [','] ln = false)
    (hshort : (pySplit ',' ln).length < n) :
    (lstartsWith "...".data (pyStrip ln) = true → extractRows n (ln :: rest) = []) ∧
    (lstartsWith "...".data (pyStrip ln) = false →
      extractRows n (ln :: rest) = extractRows n rest) := by
  constructor <;> intro hdots <;>
    simp [extractRows, hne, hnc, hshort, hdots]

/-- C7 witness: a lone short `"..."` line stops extraction with no rows. -/
theorem c7_witness : extractRows 3 ["...".data] = [] :=
  (c7_short_line_policy 3 "...".data [] (by decide) (by decide) (by decide)).1 (by decide)

/-- Unfolding of `keyLe` on two nonempty strings. -/
theorem keyLe_cons_iff (a b : Char) (as bs : List Char) :
    keyLe (a :: as) (b :: bs) = true ↔
      (a.toNat < b.toNat ∨ (a.toNat = b.toNat ∧ keyLe as bs = true)) := by
  show (if a.toNat < b.toNat then true
    else if b.toNat < a.toNat then false else keyLe as bs) = true ↔ _
  split_ifs with h1 h2
  · simp [h1]
  · simp only [Bool.false_eq_true, false_iff]
    intro hc
    rcases hc with hc | ⟨hc, _⟩ <;> omega
  · have heq : a.toNat = b.toNat := by omega
    simp [heq, h1]

theorem keyLe_total : ∀ a b : List Char, keyLe a b = true ∨ keyLe b a = true
  | [], _ => Or.inl rfl
  | _ :: _, [] => Or.inr rfl
  | a :: as, b :: bs => by
    rw [keyLe_cons_iff, keyLe_cons_iff]
    rcases Nat.lt_trichotomy a.toNat b.toNat with h | h | h
    · exact Or.inl (Or.inl h)
    · rcases keyLe_total as bs with hr | hr
      · exact Or.inl (Or.inr ⟨h, hr⟩)
      · exact Or.inr (Or.inr ⟨h.symm, hr⟩)
    · exact Or.inr (Or.inl h)

theorem keyLe_trans : ∀ a b c : List Char,
    keyLe a b = true → keyLe b c = true → keyLe a c = true
  | [], _, _, _, _ => rfl
  | _ :: _, [], _, hab, _ => by simp [keyLe] at hab
  | _ :: _, _ :: _, [], _, hbc => by simp [keyLe] at hbc
  | a :: as, b :: bs, c :: cs, hab, hbc => by
    rw [keyLe_cons_iff] at hab hbc ⊢
    rcases hab with h1 | ⟨h1, r1⟩
    · rcases hbc with h2 | ⟨h2, _⟩
      · exact Or.inl (by omega)
      · exact Or.inl (by omega)
    · rcases hbc with h2 | ⟨h2, r2⟩
      · exact Or.inl (by omega)
      · exact Or.inr ⟨by omega, keyLe_trans as bs cs r1 r2⟩

theorem keyLe_antisymm : ∀ a b : List Char,
    keyLe a b = true → keyLe b a = true → a = b
  | [], [], _, _ => rfl
  | [], _ :: _, _, hba => by simp [keyLe] at hba
  | _ :: _, [], hab, _ => by simp [keyLe] at hab
  | a :: as, b :: bs, hab, hba => by
    rw [keyLe_cons_iff] at hab hba
    rcases hab with h1 | ⟨h1, r1⟩
    · rcases hba with h2 | ⟨h2, _⟩ <;> omega
    · rcases hba with h2 | ⟨h2, r2⟩
      · omega
      · have hc : a = b := Char.ext (UInt32.ext h1)
        rw [hc, keyLe_antisymm as bs r1 r2]

theorem sortKeys_perm (l : List (List Char)) : (sortKeys l).Perm l :=
  List.perm_insertionSort keyLeP l

theorem sortKeys_sorted (l : List (List Char)) : List.Sorted keyLeP (sortKeys l) :=
  @List.sorted_insertionSort _ keyLeP _ ⟨keyLe_total⟩ ⟨keyLe_trans⟩ l

/-- pandas' sorted group-key order depends only on the multiset of keys. -/
theorem groupKeys_eq_of_perm {l1 l2 : List (List Char)} (h : l1.Perm l2) :
    groupKeys l1 = groupKeys l2 := by
  have hs : (sortKeys l1.dedup).Perm (sortKeys l2.dedup) :=
    (sortKeys_perm _).trans (h.dedup.trans (sortKeys_perm _).symm)
  exact @List.eq_of_perm_of_sorted _ keyLeP ⟨keyLe_antisymm⟩ _ _ hs
    (sortKeys_sorted _) (sortKeys_sorted _)

theorem optSum_perm {l1 l2 : List (Option ℚ)} (h : l1.Perm l2) :
    optSum l1 = optSum l2 :=
  (h.filterMap id).sum_eq

theorem optMean_perm {l1 l2 : List (Option ℚ)} (h : l1.Perm l2) :
    optMean l1 = optMean l2 := by
  unfold optMean
  have hfm := h.filterMap id
  have hlen := hfm.length_eq
  have hiff : (l1.filterMap id = []) ↔ (l2.filterMap id = []) := by
    rw [← List.length_eq_zero, ← List.length_eq_zero, hlen]
  by_cases hnil : l1.filterMap id = []
  · rw [if_pos hnil, if_pos (hiff.mp hnil)]
  · rw [if_neg hnil, if_neg (fun hc => hnil (hiff.mpr hc)), hfm.sum_eq, hlen]

theorem aggRowTraffic_perm (k : List Char) {g1 g2 : List TrafficRecord}
    (h : g1.Perm g2) : aggRowTraffic k g1 = aggRowTraffic k g2 := by
  simp only [aggRowTraffic]
  rw [(h.filterMap wOf).sum_eq, (h.filterMap erwOf).sum_eq,
    optSum_perm (h.map (fun r => r.entries)),
    optSum_perm (h.map (fun r => r.uniqueVisitors)),
    optSum_perm (h.map (fun r => r.pageViews)),
    optMean_perm (h.map (fun r => r.exitRate)),
    optMean_perm (h.map (fun r => r.timeSpent))]

theorem aggRowChannels_perm (k : List Char) {g1 g2 : List ChannelRecord}
    (h : g1.Perm g2) : aggRowChannels k g1 = aggRowChannels k g2 := by
  simp only [aggRowChannels]
  rw [optSum_perm (h.map (fun r => r.organicSearch)),
    optSum_perm (h.map (fun r => r.direct)),
    optSum_perm (h.map (fun r => r.internalTraffic)),
    optSum_perm (h.map (fun r => r.referringDomains)),
    optSum_perm (h.map (fun r => r.socialNetworks))]

theorem aggregate_traffic_perm {t1 t2 : List TrafficRecord} (h : t1.Perm t2) :
    aggregate_traffic t1 = aggregate_traffic t2 := by
  unfold aggregate_traffic
  rw [groupKeys_eq_of_perm (h.map (fun r => r.articleKey))]
  exact List.map_congr_left (fun k _ =>
    aggRowTraffic_perm k (h.filter (fun r => r.articleKey == k)))

theorem aggregate_channels_perm {c1 c2 : List ChannelRecord} (h : c1.Perm c2) :
    aggregate_channels c1 = aggregate_channels c2 := by
  unfold aggregate_channels
  rw [groupKeys_eq_of_perm (h.map (fun r => r.articleKey))]
  exact List.map_congr_left (fun k _ =>
    aggRowChannels_perm k (h.filter (fun r => r.articleKey == k)))

theorem aggregate_traffic_sorted (t : List TrafficRecord) :
    List.Sorted keyLeP ((aggregate_traffic t).map (fun a => a.articleKey)) := by
  unfold aggregate_traffic
  rw [List.map_map]
  have : ((fun a : TrafficAgg => a.articleKey) ∘
      fun k => aggRowTraffic k (t.filter (fun r => r.articleKey == k)))
      = fun k => k := funext (fun k => rfl)
  rw [this, List.map_id']
  exact sortKeys_sorted _

theorem aggregate_channels_sorted (c : List ChannelRecord) :
    List.Sorted keyLeP ((aggregate_channels c).map (fun a => a.articleKey)) := by
  unfold aggregate_channels
  rw [List.map_map]
  have : ((fun a : ChannelAgg => a.articleKey) ∘
      fun k => aggRowChannels k (c.filter (fun r => r.articleKey == k)))
      = fun k => k := funext (fun k => rfl)
  rw [this, List.map_id']
  exact sortKeys_sorted _

/-- C9 (amended): grouping is order-insensitive — permuting the input records
leaves both aggregations unchanged, totals included — but the output row
order is the ascending lexicographic order of `article_key` (pandas
`groupby(..., sort=True)`), not the insertion order of first occurrence. -/
theorem c9_order_insensitive_sorted (t1 t2 : List TrafficRecord)
    (c1 c2 : List ChannelRecord) (ht : t1.Perm t2) (hc : c1.Perm c2) :
    aggregate_traffic t1 = aggregate_traffic t2 ∧
    aggregate_channels c1 = aggregate_channels c2 ∧
    List.Sorted keyLeP ((aggregate_traffic t1).map (fun a => a.articleKey)) ∧
    List.Sorted keyLeP ((aggregate_channels c1).map (fun a => a.articleKey)) :=
  ⟨aggregate_traffic_perm ht, aggregate_channels_perm hc,
   aggregate_traffic_sorted t1, aggregate_channels_sorted c1⟩

/-- C9 witness: the two insertion orders of the keys `"b"`, `"a"` aggregate
identically, and the output keys are sorted. -/
theorem c9_witness :
    aggregate_traffic [c9rowB, c9rowA] = aggregate_traffic [c9rowA, c9rowB] ∧
    aggregate_channels ([] : List ChannelRecord) = aggregate_channels [] ∧
    List.Sorted keyLeP ((aggregate_traffic [c9rowB, c9rowA]).map (fun a => a.articleKey)) ∧
    List.Sorted keyLeP ((aggregate_channels ([] : List ChannelRecord)).map
      (fun a => a.articleKey)) :=
  c9_order_insensitive_sorted [c9rowB, c9rowA] [c9rowA, c9rowB] [] []
    (List.Perm.swap c9rowA c9rowB []) (List.Perm.refl [])

/-- C1: the claim states the aggregated Exit Rate of each group is the
page-view-weighted mean of the group's Exit Rates.  The code computes that
weighted mean (`er`) but line 100, `agg["Exit Rate"] =
agg["Exit Rate"].fillna(agg.pop("Exit Rate_w"))`, keeps the UNWEIGHTED group
mean and uses the weighted value only where that mean is missing —
contradicting the function's own docstring ("compute weighted Exit Rate").
On the group `{(exit 0, views 1), (exit 1, views 3)}` the code yields the
unweighted mean 1/2, not the spec's weighted mean 3/4. -/
theorem c1_weighted_mean_discarded :
    (aggregate_traffic [c1rowA, c1rowB]).map (fun a => a.exitRate) = [some (1 / 2)] ∧
    specWeightedMean [(some 0, some 1), (some 1, some 3)] = some (3 / 4) ∧
    some ((1 : ℚ) / 2) ≠ some ((3 : ℚ) / 4) := by
  refine ⟨?_, ?_, by norm_num⟩
  · have hk : groupKeys (List.map (fun r => r.articleKey) [c1rowA, c1rowB])
        = ["k".data] := by decide
    have hf : List.filter (fun r => r.articleKey == "k".data) [c1rowA, c1rowB]
        = [c1rowA, c1rowB] := rfl
    unfold aggregate_traffic
    rw [hk]
    simp only [List.map_cons, List.map_nil, hf]
    simp only [aggRowTraffic, optMean, c1rowA, c1rowB, wOf, erwOf,
      List.map_cons, List.map_nil, List.filterMap_cons, List.filterMap_nil,
      id_eq, List.sum_cons, List.sum_nil, List.length_cons, List.length_nil]
    norm_num
    rw [if_neg (by simp : ¬([0, 1] : List ℚ) = [])]
  · simp only [specWeightedMean, List.filterMap_cons, List.filterMap_nil,
      List.map_cons, List.map_nil, List.sum_cons, List.sum_nil]
    norm_num

/-- C2: the claim states that a group whose Page Views weights are all zero
or missing gets a missing aggregated Exit Rate.  Because of the same
`fillna` direction slip at src/inbiz_pipeline.py line 100 (the code's own
docstring says "compute weighted Exit Rate"), the group `{(exit 1/2, views
0)}` — whose weighted mean is indeed missing — is published with its
unweighted mean 1/2 instead of a missing value.  No exception is raised
(`aggregate_traffic` is total), but the result is not missing. -/
theorem c2_zero_weight_not_missing :
    (aggregate_traffic [c2row]).map (fun a => a.exitRate) = [some (1 / 2)] ∧
    [some ((1 : ℚ) / 2)] ≠ [(none : Option ℚ)] := by
  refine ⟨?_, by simp⟩
  have hk : groupKeys (List.map (fun r => r.articleKey) [c2row]) = ["k".data] := by
    decide
  have hf : List.filter (fun r => r.articleKey == "k".data) [c2row] = [c2row] := rfl
  unfold aggregate_traffic
  rw [hk]
  simp only [List.map_cons, List.map_nil, hf]
  simp only [aggRowTraffic, optMean, c2row, wOf, erwOf,
    List.map_cons, List.map_nil, List.filterMap_cons, List.filterMap_nil,
    id_eq, List.sum_cons, List.sum_nil, List.length_cons, List.length_nil]
  norm_num

/-- `lowerChar` fixes every character that is not an uppercase ASCII letter. -/
theorem lowerChar_fix (c : Char)
    (h : ¬ c ∈ (['A', 'B', 'C', 'D', 'E', 'F', 'G', 'H', 'I', 'J', 'K', 'L', 'M', 'N', 'O', 'P', 'Q', 'R', 'S', 'T', 'U', 'V', 'W', 'X', 'Y', 'Z'] : List Char)) :
    lowerChar c = c := by
  simp only [List.mem_cons, List.not_mem_nil, or_false, not_or] at h
  obtain ⟨h1, h2, h3, h4, h5, h6, h7, h8, h9, h10, h11, h12, h13, h14, h15, h16, h17, h18, h19, h20, h21, h22, h23, h24, h25, h26⟩ := h
  unfold lowerChar
  rw [if_neg h1, if_neg h2, if_neg h3, if_neg h4, if_neg h5, if_neg h6, if_neg h7, if_neg h8, if_neg h9, if_neg h10, if_neg h11, if_neg h12, if_neg h13, if_neg h14, if_neg h15, if_neg h16, if_neg h17, if_neg h18, if_neg h19, if_neg h20, if_neg h21, if_neg h22, if_neg h23, if_neg h24, if_neg h25, if_neg h26]

/-- Every character `lowerChar` produces is either unchanged or a lowercase
ASCII letter. -/
theorem lowerChar_cases (c : Char) :
    lowerChar c = c ∨ lowerChar c ∈ "abcdefghijklmnopqrstuvwxyz".data := by
  by_cases h : c ∈ (['A', 'B', 'C', 'D', 'E', 'F', 'G', 'H', 'I', 'J', 'K', 'L', 'M', 'N', 'O', 'P', 'Q', 'R', 'S', 'T', 'U', 'V', 'W', 'X', 'Y', 'Z'] : List Char)
  · right
    fin_cases h <;> decide
  · exact Or.inl (lowerChar_fix c h)

theorem lowerChar_idem (c : Char) : lowerChar (lowerChar c) = lowerChar c := by
  by_cases h : c ∈ (['A', 'B', 'C', 'D', 'E', 'F', 'G', 'H', 'I', 'J', 'K', 'L', 'M', 'N', 'O', 'P', 'Q', 'R', 'S', 'T', 'U', 'V', 'W', 'X', 'Y', 'Z'] : List Char)
  · fin_cases h <;> decide
  · rw [lowerChar_fix c h, lowerChar_fix c h]

theorem lowerChar_eq_slash (c : Char) : lowerChar c = '/' ↔ c = '/' := by
  by_cases h : c ∈ (['A', 'B', 'C', 'D', 'E', 'F', 'G', 'H', 'I', 'J', 'K', 'L', 'M', 'N', 'O', 'P', 'Q', 'R', 'S', 'T', 'U', 'V', 'W', 'X', 'Y', 'Z'] : List Char)
  · fin_cases h <;> decide
  · rw [lowerChar_fix c h]

theorem pyLower_idem (s : List Char) : pyLower (pyLower s) = pyLower s := by
  simp only [pyLower, List.map_map]
  exact List.map_congr_left (fun c _ => lowerChar_idem c)

theorem dropWhile_head?_false {p : Char → Bool} :
    ∀ (l : List Char) (c : Char), (l.dropWhile p).head? = some c → p c = false
  | [], c, h => by simp at h
  | a :: l, c, h => by
    rw [List.dropWhile_cons] at h
    split at h
    · exact dropWhile_head?_false l c h
    · rename_i hpa
      simp only [List.head?_cons, Option.some.injEq] at h
      subst h
      simpa using hpa

theorem dropWhile_eq_self_of_head {p : Char → Bool} (l : List Char)
    (h : ∀ c, l.head? = some c → p c = false) : l.dropWhile p = l := by
  cases l with
  | nil => rfl
  | cons a l => rw [List.dropWhile_cons, if_neg (by simp [h a rfl])]

/-- Dropping a run from the reversed end yields a prefix of the original. -/
theorem revDropRev_isPrefix (p : Char → Bool) (u : List Char) :
    List.IsPrefix ((u.reverse.dropWhile p).reverse) u := by
  have h2 := List.reverse_prefix.mpr (List.dropWhile_suffix (l := u.reverse) p)
  rwa [List.reverse_reverse] at h2

theorem revDropRev_getLast {p : Char → Bool} (u : List Char) (c : Char)
    (h : ((u.reverse.dropWhile p).reverse).getLast? = some c) : p c = false := by
  rw [List.getLast?_reverse] at h
  exact dropWhile_head?_false _ c h

theorem revDropRev_eq_self {p : Char → Bool} (u : List Char)
    (h : ∀ c, u.getLast? = some c → p c = false) :
    (u.reverse.dropWhile p).reverse = u := by
  rw [dropWhile_eq_self_of_head (l := u.reverse)
    (fun c hc => h c (by rwa [List.head?_reverse] at hc)), List.reverse_reverse]

theorem rstripSlashes_isPrefix (s : List Char) : List.IsPrefix (rstripSlashes s) s :=
  revDropRev_isPrefix _ s

theorem rstripSlashes_getLast (s : List Char) (c : Char)
    (h : (rstripSlashes s).getLast? = some c) : c ≠ '/' := by
  simpa using revDropRev_getLast s c h

theorem rstripSlashes_eq_self (s : List Char)
    (h : ∀ c, s.getLast? = some c → c ≠ '/') : rstripSlashes s = s :=
  revDropRev_eq_self s (fun c hc => by simpa using h c hc)

theorem pyStrip_head (x : List Char) (c : Char) (h : (pyStrip x).head? = some c) :
    isPySpace c = false := by
  unfold pyStrip at h
  obtain ⟨t, ht⟩ := revDropRev_isPrefix isPySpace (x.dropWhile isPySpace)
  have hu : (x.dropWhile isPySpace).head? = some c := by
    rw [← ht]
    cases hcase : ((x.dropWhile isPySpace).reverse.dropWhile isPySpace).reverse with
    | nil => rw [hcase] at h; simp at h
    | cons a l => rw [hcase] at h; simpa using h
  exact dropWhile_head?_false _ c hu

theorem pyStrip_getLast (x : List Char) (c : Char)
    (h : (pyStrip x).getLast? = some c) : isPySpace c = false :=
  revDropRev_getLast _ c h

theorem pyStrip_eq_self (y : List Char)
    (hh : ∀ c, y.head? = some c → isPySpace c = false)
    (hl : ∀ c, y.getLast? = some c → isPySpace c = false) : pyStrip y = y := by
  unfold pyStrip
  rw [dropWhile_eq_self_of_head y hh]
  exact revDropRev_eq_self y hl

theorem pyStrip_idem (x : List Char) : pyStrip (pyStrip x) = pyStrip x :=
  pyStrip_eq_self _ (pyStrip_head x) (pyStrip_getLast x)

theorem lstartsWith_single (x : Char) (l : List Char) :
    lstartsWith [x] l = true ↔ l.head? = some x := by
  cases l with
  | nil => simp [lstartsWith]
  | cons b bs => simp [lstartsWith, eq_comm]

theorem isPrefix_head? {l s : List Char} (h : List.IsPrefix l s) (hne : l ≠ []) :
    l.head? = s.head? := by
  obtain ⟨t, rfl⟩ := h
  cases l with
  | nil => exact absurd rfl hne
  | cons a l => rfl

theorem collapse_head : ∀ (d : Char) (rest : List Char),
    (collapseSlashes (d :: rest)).head? = some d
  | _, [] => rfl
  | d, e :: r => by
    simp only [collapseSlashes]
    split
    · rename_i hde
      rw [collapse_head e r]
      simp only [Bool.and_eq_true, decide_eq_true_eq] at hde
      rw [hde.1, hde.2]
    · rfl

theorem collapse_chain : ∀ s : List Char, List.Chain' noSlashPair (collapseSlashes s)
  | [] => List.chain'_nil
  | [c] => List.chain'_singleton c
  | c :: d :: rest => by
    simp only [collapseSlashes]
    split
    · exact collapse_chain (d :: rest)
    · rename_i hcd
      rw [List.chain'_cons']
      refine ⟨?_, collapse_chain (d :: rest)⟩
      intro b hb
      rw [collapse_head d rest] at hb
      simp only [Option.mem_def, Option.some.injEq] at hb
      subst hb
      intro hcontra
      exact hcd (by simp [hcontra.1, hcontra.2])

theorem dropLocale_chain {s : List Char} (h : List.Chain' noSlashPair s) :
    List.Chain' noSlashPair (dropLocale s) := by
  unfold dropLocale
  split
  · split_ifs with hcond
    · rename_i c1 a b c4 rest
      have h4 : List.Chain' noSlashPair (c4 :: rest) := h.tail.tail.tail
      rw [hcond.2.1] at h4
      exact h4
    · exact h
  · exact h

theorem dropLocale_head (s : List Char) : (dropLocale s).head? = s.head? := by
  unfold dropLocale
  split
  · split_ifs with hcond
    · simp [hcond.1]
    · rfl
  · rfl

/-- A list with no adjacent slashes does not start with `"//"`. -/
theorem chain_no_dslash {l : List Char} (h : List.Chain' noSlashPair l) :
    lstartsWith ['/', '/'] l = false := by
  match l with
  | [] => rfl
  | [c] => simp [lstartsWith]
  | c :: d :: rest =>
    rw [List.chain'_cons] at h
    by_cases hc : c = '/'
    · by_cases hd : d = '/'
      · exact absurd ⟨hc, hd⟩ h.1
      · simp only [lstartsWith]
        simp only [Bool.and_eq_true, decide_eq_true_eq, Bool.and_eq_false_iff,
          decide_eq_false_iff_not]
        exact Or.inr (Or.inl fun h2 => hd h2.symm)
    · simp only [lstartsWith]
      simp only [Bool.and_eq_true, decide_eq_true_eq, Bool.and_eq_false_iff,
        decide_eq_false_iff_not]
      exact Or.inl fun h1 => hc h1.symm

theorem lendsWith_single (x : Char) (s : List Char) :
    lendsWith [x] s = true ↔ s.getLast? = some x := by
  unfold lendsWith
  rw [show ([x] : List Char).reverse = [x] from rfl, lstartsWith_single,
    List.head?_reverse]

/-- The split-view normalizer is `pyLower` of a list with no adjacent
slashes, whose head (if any) is `'/'` and whose last element is never `'/'`. -/
theorem split_norm_s7 (p : List Char) :
    ∃ s7 : List Char,
      normalize_articlekey_for_split p = pyLower s7 ∧
      List.Chain' noSlashPair s7 ∧
      (s7 = [] ∨ s7.head? = some '/') ∧
      (∀ c, s7.getLast? = some c → c ≠ '/') := by
  set s5 := dropLocale (collapseSlashes (subBugHtml (subQueryFrag (pyStrip p)))) with hs5
  set s6 := if lstartsWith ['/'] s5 = true then s5 else '/' :: s5 with hs6
  have hchain5 : List.Chain' noSlashPair s5 := dropLocale_chain (collapse_chain _)
  have hchain6 : List.Chain' noSlashPair s6 := by
    rw [hs6]
    split_ifs with hsl
    · exact hchain5
    · rw [List.chain'_cons']
      refine ⟨?_, hchain5⟩
      intro b hb
      simp only [Option.mem_def] at hb
      intro hcontra
      exact hsl ((lstartsWith_single '/' s5).mpr (by rw [hb, hcontra.2]))
  have hhead6 : s6.head? = some '/' := by
    rw [hs6]
    split_ifs with hsl
    · exact (lstartsWith_single '/' s5).mp hsl
    · rfl
  refine ⟨rstripSlashes s6, rfl, ?_, ?_, rstripSlashes_getLast s6⟩
  · obtain ⟨t, ht⟩ := rstripSlashes_isPrefix s6
    rw [← ht] at hchain6
    exact hchain6.left_of_append
  · by_cases hnil : rstripSlashes s6 = []
    · exact Or.inl hnil
    · exact Or.inr (by rw [isPrefix_head? (rstripSlashes_isPrefix s6) hnil, hhead6])

theorem split_norm_lower_fix (p : List Char) :
    pyLower (normalize_articlekey_for_split p) = normalize_articlekey_for_split p := by
  obtain ⟨s7, hy, -, -, -⟩ := split_norm_s7 p
  rw [hy, pyLower_idem]

theorem split_norm_chain (p : List Char) :
    List.Chain' noSlashPair (normalize_articlekey_for_split p) := by
  obtain ⟨s7, hy, hchain, -, -⟩ := split_norm_s7 p
  rw [hy]
  unfold pyLower
  rw [List.chain'_map]
  exact hchain.imp (fun a b hab hcon =>
    hab ⟨(lowerChar_eq_slash a).mp hcon.1, (lowerChar_eq_slash b).mp hcon.2⟩)

theorem split_norm_head (p : List Char) :
    normalize_articlekey_for_split p = [] ∨
    (normalize_articlekey_for_split p).head? = some '/' := by
  obtain ⟨s7, hy, -, hhead, -⟩ := split_norm_s7 p
  rcases hhead with hnil | hh
  · exact Or.inl (by rw [hy, hnil]; rfl)
  · refine Or.inr ?_
    rw [hy]
    unfold pyLower
    rw [List.head?_map, hh]
    rfl

theorem split_norm_last (p : List Char) (c : Char)
    (h : (normalize_articlekey_for_split p).getLast? = some c) : c ≠ '/' := by
  obtain ⟨s7, hy, -, -, hlast⟩ := split_norm_s7 p
  rw [hy] at h
  unfold pyLower at h
  rw [← List.head?_reverse, ← List.map_reverse, List.head?_map,
    List.head?_reverse] at h
  cases hcase : s7.getLast? with
  | none => rw [hcase] at h; simp at h
  | some b =>
    rw [hcase] at h
    simp only [Option.map_some', Option.some.injEq] at h
    subst h
    intro hcon
    exact hlast b hcase ((lowerChar_eq_slash b).mp hcon)

/-- C10: for every input, the split-view key normalizer's output is a fixed
point of lower-casing, never ends with `'/'`, and is either empty or begins
with exactly one leading `'/'` (its head is `'/'` and it does not start with
`"//"`). -/
theorem c10_output_invariants (p : List Char) :
    pyLower (normalize_articlekey_for_split p) = normalize_articlekey_for_split p ∧
    lendsWith ['/'] (normalize_articlekey_for_split p) = false ∧
    (normalize_articlekey_for_split p = [] ∨
     ((normalize_articlekey_for_split p).head? = some '/' ∧
      lstartsWith ['/', '/'] (normalize_articlekey_for_split p) = false)) := by
  refine ⟨split_norm_lower_fix p, ?_, ?_⟩
  · cases hb : lendsWith ['/'] (normalize_articlekey_for_split p) with
    | false => rfl
    | true =>
      have := (lendsWith_single '/' _).mp hb
      exact absurd rfl (split_norm_last p '/' this)
  · rcases split_norm_head p with hnil | hh
    · exact Or.inl hnil
    · exact Or.inr ⟨hh, chain_no_dslash (split_norm_chain p)⟩

theorem subQueryFrag_eq_self : ∀ y : List Char,
    (∀ c ∈ y, c ≠ '?' ∧ c ≠ '#') → subQueryFrag y = y
  | [], _ => rfl
  | c :: rest, h => by
    have hc := h c (by simp)
    simp only [subQueryFrag]
    rw [if_neg (by simp [hc.1, hc.2]),
      subQueryFrag_eq_self rest (fun d hd => h d (List.mem_cons_of_mem c hd))]

theorem subBugHtml_eq_self : ∀ y : List Char,
    (∀ c ∈ y, c ≠ '\\') → subBugHtml y = y
  | [], _ => rfl
  | [_], _ => rfl
  | c :: x :: rest, h => by
    simp only [subBugHtml]
    rw [if_neg (by simp [h c (by simp)]),
      subBugHtml_eq_self (x :: rest) (fun d hd => h d (List.mem_cons_of_mem c hd))]

theorem collapse_eq_self : ∀ y : List Char,
    List.Chain' noSlashPair y → collapseSlashes y = y
  | [], _ => rfl
  | [_], _ => rfl
  | c :: d :: rest, h => by
    rw [List.chain'_cons] at h
    simp only [collapseSlashes]
    rw [if_neg (by simp only [Bool.and_eq_true, decide_eq_true_eq]; exact h.1),
      collapse_eq_self (d :: rest) h.2]

theorem dropLocale_eq_self (y : List Char) (hlow : pyLower y = y)
    (hit : lstartsWith "/it/".data y = false)
    (hen : lstartsWith "/en/".data y = false) : dropLocale y = y := by
  rcases y with _ | ⟨c1, _ | ⟨a, _ | ⟨b, _ | ⟨c4, rest⟩⟩⟩⟩
  · rfl
  · rfl
  · rfl
  · rfl
  · simp only [dropLocale]
    rw [if_neg]
    rintro ⟨hc1, hc4, hcase⟩
    simp only [pyLower, List.map_cons, List.cons.injEq] at hlow
    obtain ⟨-, ha, hb, -, -⟩ := hlow
    subst hc1
    subst hc4
    rcases hcase with ⟨hi, hT⟩ | ⟨hE, hN⟩
    · rw [ha.symm.trans hi, hb.symm.trans hT] at hit
      exact absurd hit (by
        simp [show lstartsWith "/it/".data ('/' :: 'i' :: 't' :: '/' :: rest) = true
          from rfl])
    · rw [ha.symm.trans hE, hb.symm.trans hN] at hen
      exact absurd hen (by
        simp [show lstartsWith "/en/".data ('/' :: 'e' :: 'n' :: '/' :: rest) = true
          from rfl])

theorem stripHtmlExt_isPrefix (s : List Char) :
    List.IsPrefix (stripHtmlExt s) s := by
  unfold stripHtmlExt
  split_ifs
  · exact List.take_prefix _ s
  · exact List.take_prefix _ s
  · exact List.prefix_refl s

theorem stripHtmlExt_eq_self (s : List Char)
    (h5 : lendsWith ".html".data s = false) (h4 : lendsWith ".htm".data s = false) :
    stripHtmlExt s = s := by
  unfold stripHtmlExt
  rw [if_neg (by simp [h5]), if_neg (by simp [h4])]

theorem normalize_key_head (x : List Char) (c : Char)
    (h : (normalize_key x).head? = some c) : isPySpace c = false := by
  simp only [normalize_key] at h
  by_cases hnil : pyStrip x = []
  · rw [if_pos hnil, hnil] at h
    simp at h
  · rw [if_neg hnil] at h
    by_cases hstart : lstartsWith ['/'] (pyStrip x) = true
    · rw [if_pos hstart] at h
      have hne : stripHtmlExt (rstripSlashes (pyStrip x)) ≠ [] := by
        intro hc0
        rw [hc0] at h
        simp at h
      rw [isPrefix_head?
        ((stripHtmlExt_isPrefix _).trans (rstripSlashes_isPrefix _)) hne] at h
      exact pyStrip_head x c h
    · rw [if_neg hstart] at h
      exact pyStrip_head x c h

theorem normalize_key_eq_self (y : List Char)
    (hstrip : pyStrip y = y)
    (h5 : lendsWith ".html".data y = false) (h4 : lendsWith ".htm".data y = false)
    (hsl : lendsWith ['/'] y = false) :
    normalize_key y = y := by
  have hlast : ∀ c, y.getLast? = some c → c ≠ '/' := by
    intro c hc hceq
    subst hceq
    rw [(lendsWith_single '/' y).mpr hc] at hsl
    simp at hsl
  simp only [normalize_key, hstrip]
  by_cases hnil : y = []
  · simp [hnil]
  · rw [if_neg hnil]
    by_cases hstart : lstartsWith ['/'] y = true
    · rw [if_pos hstart, rstripSlashes_eq_self y hlast, stripHtmlExt_eq_self y h5 h4]
    · rw [if_neg hstart]

theorem split_norm_eq_self (y : List Char)
    (hlow : pyLower y = y)
    (hchain : List.Chain' noSlashPair y)
    (hhead : y = [] ∨ y.head? = some '/')
    (hlast : ∀ c, y.getLast? = some c → c ≠ '/')
    (hqf : ∀ c ∈ y, c ≠ '?' ∧ c ≠ '#')
    (hbs : ∀ c ∈ y, c ≠ '\\')
    (hws : ∀ c, y.getLast? = some c → isPySpace c = false)
    (hit : lstartsWith "/it/".data y = false)
    (hen : lstartsWith "/en/".data y = false) :
    normalize_articlekey_for_split y = y := by
  rcases hhead with rfl | hhead
  · rfl
  · have hh : ∀ c, y.head? = some c → isPySpace c = false := by
      intro c hc
      rw [hhead] at hc
      injection hc with hc
      subst hc
      rfl
    simp only [normalize_articlekey_for_split]
    rw [pyStrip_eq_self y hh hws, subQueryFrag_eq_self y hqf, subBugHtml_eq_self y hbs,
      collapse_eq_self y hchain, dropLocale_eq_self y hlow hit hen,
      if_pos ((lstartsWith_single '/' y).mpr hhead), rstripSlashes_eq_self y hlast, hlow]

/-- C3 (amended): the key normalizers are idempotent on every input whose
normalized form avoids the features each pass can strip again:
`_normalize_key` is idempotent whenever its output does not end in `.htm`,
`.html`, `/`, or whitespace; `_normalize_articlekey_for_split` is idempotent
whenever its output contains no `?`, `#` or backslash, has no trailing
whitespace, and does not begin with a locale segment `/it/` or `/en/`.
(Unconditional idempotence is refuted by the counterexample theorem.) -/
theorem c3_idempotent_conditional (x : List Char) :
    (lendsWith ".html".data (normalize_key x) = false →
     lendsWith ".htm".data (normalize_key x) = false →
     lendsWith ['/'] (normalize_key x) = false →
     (normalize_key x).getLast?.all (fun c => !isPySpace c) = true →
     normalize_key (normalize_key x) = normalize_key x) ∧
    ((∀ c ∈ normalize_articlekey_for_split x, c ≠ '?' ∧ c ≠ '#' ∧ c ≠ '\\') →
     (normalize_articlekey_for_split x).getLast?.all (fun c => !isPySpace c) = true →
     lstartsWith "/it/".data (normalize_articlekey_for_split x) = false →
     lstartsWith "/en/".data (normalize_articlekey_for_split x) = false →
     normalize_articlekey_for_split (normalize_articlekey_for_split x)
       = normalize_articlekey_for_split x) := by
  constructor
  · intro h5 h4 hsl hws
    have hws' : ∀ c, (normalize_key x).getLast? = some c → isPySpace c = false := by
      intro c hc
      rw [hc] at hws
      simpa using hws
    exact normalize_key_eq_self _
      (pyStrip_eq_self _ (normalize_key_head x) hws') h5 h4 hsl
  · intro hc hws hit hen
    have hws' : ∀ c, (normalize_articlekey_for_split x).getLast? = some c →
        isPySpace c = false := by
      intro c hcc
      rw [hcc] at hws
      simpa using hws
    exact split_norm_eq_self _ (split_norm_lower_fix x) (split_norm_chain x)
      (split_norm_head x) (split_norm_last x)
      (fun c hcm => ⟨(hc c hcm).1, (hc c hcm).2.1⟩)
      (fun c hcm => (hc c hcm).2.2) hws' hit hen

/-- C3 witness: `"/a.html"` normalizes (via `_normalize_key`) to `"/a"` and
`"/it/News/Articolo"` normalizes (via the split-view normalizer) to
`"/news/articolo"`; both outputs satisfy the conditions and are fixed
points. -/
theorem c3_witness :
    normalize_key (normalize_key "/a.html".data) = normalize_key "/a.html".data ∧
    normalize_articlekey_for_split
        (normalize_articlekey_for_split "/it/News/Articolo".data)
      = normalize_articlekey_for_split "/it/News/Articolo".data :=
  ⟨(c3_idempotent_conditional "/a.html".data).1
     (by decide) (by decide) (by decide) (by decide),
   (c3_idempotent_conditional "/it/News/Articolo".data).2
     (by decide) (by decide) (by decide) (by decide)⟩
